import Mathlib

/-!
Shallow embedding of the EV/EBITDA fair-value application
(`ev_fair_value_app.py` and `backtest_utils.py`).

Modelling conventions:
* Python floats are modelled by `ℚ` (exact rational arithmetic); the
  application's claims are about control flow, thresholds and algebraic
  identities, none of which hinge on binary floating point.
* A yfinance `info` dictionary is modelled by `Info`, whose fields are
  `Option`-valued: `none` is Python's `None` (key absent).
* Python truthiness on a numeric field (`if not (ev and ebitda and shares)`)
  is falsity exactly when the value is `None` or `0`; the guard in
  `get_fair_value` spells this out as a match on the options plus a zero test.
* A daily price bar of the fetched history is a `Bar` carrying the year of
  its date together with the High/Low/Close columns (the only ones read).
* Exceptions are modelled explicitly: plain-float division by zero
  (`ZeroDivisionError`, caught by the surrounding `except`) becomes an
  explicit zero test returning `none`; a failing data fetch is an
  `Except.error` consumed by the per-ticker wrappers.  A pandas column
  reduction (`mean`, `max`, `min`) never raises here because the loop bodies
  guard for emptiness first.
* `round(x, 2)` is modelled by `round2`, round-half-to-even at two decimals,
  Python's rounding rule.
-/

/-- The subset of the yfinance `info` dictionary the application reads.
`none` models an absent key / Python `None`. -/
structure Info where
  enterpriseValue : Option ℚ
  ebitda : Option ℚ
  sharesOutstanding : Option ℚ
  currentPrice : Option ℚ
  shortName : Option String
  marketCap : Option ℚ
  industry : Option String
deriving Repr

/-- One daily bar of the fetched price history: the calendar year of its date
and the High/Low/Close columns (the only columns the application reads). -/
structure Bar where
  year : ℤ
  high : ℚ
  low : ℚ
  close : ℚ
deriving Repr

/-- Round-half-to-even to an integer, Python's `round` rule for floats. -/
def roundHalfEven (x : ℚ) : ℤ :=
  let n := ⌊x⌋
  let frac := x - n
  if frac < 1/2 then n
  else if 1/2 < frac then n + 1
  else if n % 2 = 0 then n else n + 1

/-- Python's `round(x, 2)`: round-half-to-even at two decimal places. -/
def round2 (x : ℚ) : ℚ := (roundHalfEven (x * 100) : ℚ) / 100

/-- pandas `Series.max` over a column: `none` on an empty series, otherwise
the fold of `max` over the entries. -/
def seriesMax : List ℚ → Option ℚ
  | [] => none
  | x :: xs => some (xs.foldl max x)

/-- pandas `Series.min` over a column. -/
def seriesMin : List ℚ → Option ℚ
  | [] => none
  | x :: xs => some (xs.foldl min x)

/-- Python's `f(x) if x else "N/A"` applied to an optional numeric value:
the `"N/A"` arm (here `none`) is selected when the value is `None` or `0`
(numeric truthiness). -/
def truthyMap (f : ℚ → ℚ) : Option ℚ → Option ℚ
  | some x => if x = 0 then none else some (f x)
  | none => none

/-- `get_fair_value` (ev_fair_value_app.py lines 8-27).  The Python guard
`if not (ev and ebitda and shares): return None, None` fails when any of the
three is `None` or `0` (numeric truthiness); otherwise
`ev_ebitda_mult = ev / ebitda`, `projected_ebitda = ebitda * (1 + growth_rate)`,
`projected_ev = projected_ebitda * ev_ebitda_mult`,
`fair_price = projected_ev / shares`, returned beside the (possibly absent)
current price.  The Python default `growth_rate=0.10` is passed explicitly as
`1/10` by the caller.  The `except` arm is unreachable on this path: both
divisions have a divisor the guard proved nonzero. -/
def get_fair_value (info : Info) (growth_rate : ℚ) : Option ℚ × Option ℚ :=
  match info.enterpriseValue, info.ebitda, info.sharesOutstanding with
  | some ev, some ebitda, some shares =>
      if ev = 0 ∨ ebitda = 0 ∨ shares = 0 then (none, none)
      else
        let ev_ebitda_mult := ev / ebitda
        let projected_ebitda := ebitda * (1 + growth_rate)
        let projected_ev := projected_ebitda * ev_ebitda_mult
        let fair_price := projected_ev / shares
        (some fair_price, info.currentPrice)
  | _, _, _ => (none, none)

/-- The per-ticker output row of `ev_valuation`.  `Option ℚ` fields are the
ones whose Python value is either a number or the string sentinel `"N/A"`
(`none` here). -/
structure ValuationResult where
  symbol : String
  name : String
  fairValue : ℚ
  currentPrice : ℚ
  undervalPct : ℚ
  band : String
  market : String
  capSize : String
  industry : String
  high3y : Option ℚ
  low3y : Option ℚ
  entryPrice : Option ℚ
  exitPrice : Option ℚ
  signal : String
deriving Repr

/-- `ev_valuation` (ev_fair_value_app.py lines 29-86).  `info` and `hist` are
the data the two yfinance calls return for `ticker`.  The match arm `_ => none`
is the `if fair_price is None or current_price is None: return None` check;
the `current_price = 0` test models the `ZeroDivisionError` that the
`underval_pct` division raises on a zero current price, caught by the
function's `except` handler (yielding `None`).  `info.get(key, default)`
becomes `Option.getD`.  The `if low_3y` / `if high_3y` conditions are Python
numeric truthiness again: `None` and `0` both select the `"N/A"` arm. -/
def ev_valuation (ticker : String) (info : Info) (hist : List Bar) : Option ValuationResult :=
  match get_fair_value info (1/10) with
  | (some fair_price, some current_price) =>
      if current_price = 0 then none
      else
        let company_name := info.shortName.getD "N/A"
        let market_cap := info.marketCap.getD 0
        let industry := info.industry.getD "N/A"
        let cap_type : String :=
          if market_cap ≥ 200000000000 then "Mega"
          else if market_cap ≥ 10000000000 then "Large"
          else if market_cap ≥ 2000000000 then "Mid"
          else "Small"
        let market := if ticker.endsWith ".NS" then "India" else "USA"
        let underval_pct := ((fair_price - current_price) / current_price) * 100
        let band : String :=
          if fair_price < 0 ∨ underval_pct < 5 then "Over Valued"
          else if underval_pct > 30 then "Deep Discount"
          else if underval_pct > 20 then "High Value"
          else if underval_pct > 18 then "Undervalued"
          else "Fair/Premium"
        let high_3y : Option ℚ := if hist.isEmpty then none else seriesMax (hist.map Bar.high)
        let low_3y : Option ℚ := if hist.isEmpty then none else seriesMin (hist.map Bar.low)
        let entry_price : Option ℚ := truthyMap (fun l => round2 (l * (105/100))) low_3y
        let exit_price : Option ℚ := truthyMap (fun h => round2 (h * (95/100))) high_3y
        let high_3y_out : Option ℚ := truthyMap round2 high_3y
        let low_3y_out : Option ℚ := truthyMap round2 low_3y
        some {
          symbol := ticker
          name := company_name
          fairValue := round2 fair_price
          currentPrice := round2 current_price
          undervalPct := round2 underval_pct
          band := band
          market := market
          capSize := cap_type
          industry := industry
          high3y := high_3y_out
          low3y := low_3y_out
          entryPrice := entry_price
          exitPrice := exit_price
          signal := if fair_price > current_price then "Buy" else "Hold/Sell" }
  | _ => none

/-- One output row of `backtest_fair_value`.  `converged` keeps the Python
string encoding `"Yes"` / `"No"`. -/
structure BacktestRow where
  year : ℤ
  simFairValue : ℚ
  avgPrice : ℚ
  priceHigh : ℚ
  priceLow : ℚ
  devPct : ℚ
  converged : String
deriving Repr

/-- The backward-discounted fair value of `backtest_utils.py` line 28:
`fair_value_current / ((1.10) ** reverse_years)`. -/
def simulated_fv (fair_value_current : ℚ) (reverse_years : ℤ) : ℚ :=
  fair_value_current / (11/10 : ℚ) ^ reverse_years

/-- The body of the year loop of `backtest_fair_value`
(backtest_utils.py lines 17-40) for one calendar `year`:
`continue` on a year with no bars, otherwise the row built from that year's
mean Close, max High, min Low and the reverse-discounted fair value.  The
column reductions are written on the nonempty list the match exposes, which
is exactly `hist.filter (·.year = year)`.  `deviation_pct` divides by the
numpy scalar `avg_price`, which does not raise on zero, so the arm is total. -/
def backtest_year_row (fair_value_current : ℚ) (hist : List Bar) (currentYear year : ℤ) :
    Option BacktestRow :=
  match hist.filter (fun b => b.year = year) with
  | [] => none
  | b :: bs =>
      let year_data := b :: bs
      let avg_price := (year_data.map Bar.close).sum / (year_data.length : ℚ)
      let high_price := (bs.map Bar.high).foldl max b.high
      let low_price := (bs.map Bar.low).foldl min b.low
      let reverse_years : ℤ := currentYear - year
      let sfv := simulated_fv fair_value_current reverse_years
      let deviation_pct := ((sfv - avg_price) / avg_price) * 100
      some {
        year := year
        simFairValue := round2 sfv
        avgPrice := round2 avg_price
        priceHigh := round2 high_price
        priceLow := round2 low_price
        devPct := round2 deviation_pct
        converged := if low_price ≤ sfv ∧ sfv ≤ high_price then "Yes" else "No" }

/-- `backtest_fair_value` (backtest_utils.py lines 6-45).  `hist` is the
history the yfinance call returns (its bars carry their calendar year),
`currentYear` is `datetime.now().year`.  `if hist.empty ... return
pd.DataFrame()` is the emptiness guard; the `"Close" not in hist` half of that
guard cannot fire in this model, where every bar carries all three columns.
The Python loop `for year in range(end_date.year - years, end_date.year)`
iterates the years `currentYear - years + i` for `i = 0, ..., years - 1` in
ascending order, skipping (`continue`) years without bars. -/
def backtest_fair_value (fair_value_current : ℚ) (hist : List Bar)
    (currentYear : ℤ) (years : ℕ) : List BacktestRow :=
  if hist.isEmpty then []
  else
    (List.range years).filterMap fun i : ℕ =>
      backtest_year_row fair_value_current hist currentYear
        (currentYear - years + (i : ℤ))

/-- A per-ticker data fetch that can fail: `Except.error` stands for any
exception the data source raises (network fault, unknown symbol, malformed
payload), `Except.ok` for the `info` dictionary and 3-year history. -/
def FetchValuation : Type := String → Except String (Info × List Bar)

/-- A per-ticker history fetch for the backtester, likewise fallible. -/
def FetchHistory : Type := String → Except String (List Bar)

/-- `ev_valuation` as called on a live data source: every exception the fetch
raises is caught by the function's `try`/`except` and becomes `None`
(ev_fair_value_app.py lines 85-86). -/
def ev_valuation_fetched (fetch : FetchValuation) (ticker : String) : Option ValuationResult :=
  match fetch ticker with
  | .error _ => none
  | .ok (info, hist) => ev_valuation ticker info hist

/-- `backtest_fair_value` on a live data source: every exception becomes the
empty row list (backtest_utils.py lines 44-45). -/
def backtest_fair_value_fetched (fetch : FetchHistory) (ticker : String)
    (fair_value_current : ℚ) (currentYear : ℤ) (years : ℕ) : List BacktestRow :=
  match fetch ticker with
  | .error _ => []
  | .ok hist => backtest_fair_value fair_value_current hist currentYear years

/-- The batch loop of ev_fair_value_app.py lines 101-105: each ticker is
valued in turn and only truthy (non-`None`) rows are appended. -/
def process_tickers (fetch : FetchValuation) (tickers : List String) : List ValuationResult :=
  tickers.filterMap (ev_valuation_fetched fetch)

/-- Modelled from the spec (section 4.1, Variant A): the band policy written
from the spec's words, to be compared with the band `ev_valuation` computes.
The spec's labels OverValued / DeepDiscount / HighValue / Undervalued /
FairOrPremium are rendered by the application's display strings. -/
def specBandA (fairPrice currentPrice : ℚ) : String :=
  let undervalPct := (fairPrice - currentPrice) / currentPrice * 100
  if fairPrice < 0 ∨ undervalPct < 5 then "Over Valued"
  else if undervalPct > 30 then "Deep Discount"
  else if undervalPct > 20 then "High Value"
  else if undervalPct > 18 then "Undervalued"
  else "Fair/Premium"

/-! ## Helper lemmas -/

/-- Inversion for `get_fair_value`: a present fair price means all three
fundamentals were present and nonzero, and exposes the computed value. -/
lemma get_fair_value_fst_some_inv (info : Info) (g fp : ℚ) (cpo : Option ℚ)
    (h : get_fair_value info g = (some fp, cpo)) :
    ∃ ev eb sh, info.enterpriseValue = some ev ∧ info.ebitda = some eb ∧
      info.sharesOutstanding = some sh ∧ ev ≠ 0 ∧ eb ≠ 0 ∧ sh ≠ 0 ∧
      fp = eb * (1 + g) * (ev / eb) / sh ∧ cpo = info.currentPrice := by
  unfold get_fair_value at h
  split at h
  case _ ev eb sh hev heb hsh =>
    split at h
    · exact absurd h (by simp)
    · next hz =>
        push_neg at hz
        rw [Prod.mk.injEq] at h
        exact ⟨ev, eb, sh, hev, heb, hsh, hz.1, hz.2.1, hz.2.2,
          (Option.some.inj h.1).symm, h.2.symm⟩
  case _ => exact absurd h (by simp)

/-! ## C2: ratio path equals closed form -/

/-- C2: for every fundamentals input where enterpriseValue, ebitda and
sharesOutstanding are present and ebitda is nonzero, any fair price the
ratio-based path of `get_fair_value` produces equals the closed form
`enterpriseValue * (1 + growthRate) / sharesOutstanding` (exactly, in the
rational model, hence within any floating-point tolerance). -/
theorem get_fair_value_closed_form
    (info : Info) (g ev eb sh fp : ℚ)
    (hev : info.enterpriseValue = some ev) (heb : info.ebitda = some eb)
    (hsh : info.sharesOutstanding = some sh) (_hebz : eb ≠ 0)
    (h : (get_fair_value info g).1 = some fp) :
    fp = ev * (1 + g) / sh := by
  rcases hgf : get_fair_value info g with ⟨o1, o2⟩
  rw [hgf] at h
  dsimp only at h
  subst h
  obtain ⟨ev', eb', sh', hev', heb', hsh', _, _, _, hfp, _⟩ :=
    get_fair_value_fst_some_inv info g fp o2 hgf
  rw [hev] at hev'; rw [heb] at heb'; rw [hsh] at hsh'
  obtain rfl := Option.some.inj hev'
  obtain rfl := Option.some.inj heb'
  obtain rfl := Option.some.inj hsh'
  rw [hfp]
  have hmul : eb * (1 + g) * (ev / eb) = ev * (1 + g) := by
    field_simp
    ring
  rw [hmul]

/-- Witness for C2 at `ev = 200`, `ebitda = 7`, `shares = 4`, `g = 1/10`. -/
def infoC2 : Info := ⟨some 200, some 7, some 4, none, none, none, none⟩

theorem get_fair_value_closed_form_witness :
    (get_fair_value infoC2 (1/10)).1 = some 55 ∧ (55 : ℚ) = 200 * (1 + 1/10) / 4 := by
  have h : (get_fair_value infoC2 (1/10)).1 = some 55 := by
    simp only [get_fair_value, infoC2]
    norm_num
  exact ⟨h, get_fair_value_closed_form infoC2 (1/10) 200 7 4 55 rfl rfl rfl
    (by norm_num) h⟩

/-! ## C5: absent fundamentals give an absent result -/

/-- Helper for C5 (shared with the failure-propagation development): a
missing fundamentals field short-circuits `get_fair_value` to the absent
pair. -/
lemma gfv_missing_absent (info : Info) (g : ℚ)
    (h : info.enterpriseValue = none ∨ info.ebitda = none ∨
      info.sharesOutstanding = none) :
    get_fair_value info g = (none, none) := by
  unfold get_fair_value
  rcases hoev : info.enterpriseValue with _ | ev <;>
    rcases hoeb : info.ebitda with _ | eb <;>
      rcases hosh : info.sharesOutstanding with _ | sh <;>
        simp_all

/-- C5: `get_fair_value` yields the absent pair whenever any one of
enterpriseValue, ebitda or sharesOutstanding is absent, in every
combination; no fair price is computed for such a ticker. -/
theorem get_fair_value_absent_on_missing (info : Info) (g : ℚ)
    (h : info.enterpriseValue = none ∨ info.ebitda = none ∨
      info.sharesOutstanding = none) :
    get_fair_value info g = (none, none) :=
  gfv_missing_absent info g h

/-- Witness for C5: enterpriseValue absent, the others present. -/
def infoC5 : Info := ⟨none, some 1, some 2, some 3, none, none, none⟩

theorem get_fair_value_absent_on_missing_witness :
    get_fair_value infoC5 1 = (none, none) :=
  get_fair_value_absent_on_missing infoC5 1 (Or.inl rfl)

/-! ## C9: zero-valued fundamentals fall to the same guard -/

/-- C9: a present-but-zero enterpriseValue, ebitda or sharesOutstanding is
rejected by the same truthiness guard that rejects missing fields, before
any division; conversely, whenever the computation path runs (a fair price
is returned) all three fundamentals are present and nonzero, so the
divisions by `ebitda` and by `shares` never divide by zero and the
arithmetic-fault handler is unreachable from this path. -/
theorem get_fair_value_zero_guard (info : Info) (g : ℚ) :
    ((info.enterpriseValue = some 0 ∨ info.ebitda = some 0 ∨
        info.sharesOutstanding = some 0) →
      get_fair_value info g = (none, none)) ∧
    (∀ fp cpo, get_fair_value info g = (some fp, cpo) →
      ∃ ev eb sh, info.enterpriseValue = some ev ∧ info.ebitda = some eb ∧
        info.sharesOutstanding = some sh ∧ ev ≠ 0 ∧ eb ≠ 0 ∧ sh ≠ 0) := by
  constructor
  · intro h
    unfold get_fair_value
    rcases hoev : info.enterpriseValue with _ | ev <;>
      rcases hoeb : info.ebitda with _ | eb <;>
        rcases hosh : info.sharesOutstanding with _ | sh <;>
          simp_all
  · intro fp cpo h
    obtain ⟨ev, eb, sh, hev, heb, hsh, hevz, hebz, hshz, _, _⟩ :=
      get_fair_value_fst_some_inv info g fp cpo h
    exact ⟨ev, eb, sh, hev, heb, hsh, hevz, hebz, hshz⟩

/-- Witness for C9: ebitda present but exactly zero. -/
def infoC9 : Info := ⟨some 100, some 0, some 10, some 50, none, none, none⟩

theorem get_fair_value_zero_guard_witness :
    get_fair_value infoC9 (1/10) = (none, none) :=
  (get_fair_value_zero_guard infoC9 (1/10)).1 (Or.inr (Or.inl rfl))

/-- Forward evaluation of `ev_valuation`: once `get_fair_value` has produced a
fair price and a nonzero current price, the returned record is this one. -/
lemma ev_valuation_eq (ticker : String) (info : Info) (hist : List Bar) (fp cp : ℚ)
    (hgf : get_fair_value info (1/10) = (some fp, some cp)) (hcp : cp ≠ 0) :
    ev_valuation ticker info hist = some {
      symbol := ticker
      name := info.shortName.getD "N/A"
      fairValue := round2 fp
      currentPrice := round2 cp
      undervalPct := round2 ((fp - cp) / cp * 100)
      band :=
        if fp < 0 ∨ (fp - cp) / cp * 100 < 5 then "Over Valued"
        else if (fp - cp) / cp * 100 > 30 then "Deep Discount"
        else if (fp - cp) / cp * 100 > 20 then "High Value"
        else if (fp - cp) / cp * 100 > 18 then "Undervalued"
        else "Fair/Premium"
      market := if ticker.endsWith ".NS" then "India" else "USA"
      capSize :=
        if info.marketCap.getD 0 ≥ 200000000000 then "Mega"
        else if info.marketCap.getD 0 ≥ 10000000000 then "Large"
        else if info.marketCap.getD 0 ≥ 2000000000 then "Mid"
        else "Small"
      industry := info.industry.getD "N/A"
      high3y := truthyMap round2
        (if hist.isEmpty then none else seriesMax (hist.map Bar.high))
      low3y := truthyMap round2
        (if hist.isEmpty then none else seriesMin (hist.map Bar.low))
      entryPrice := truthyMap (fun l => round2 (l * (105/100)))
        (if hist.isEmpty then none else seriesMin (hist.map Bar.low))
      exitPrice := truthyMap (fun h => round2 (h * (95/100)))
        (if hist.isEmpty then none else seriesMax (hist.map Bar.high))
      signal := if fp > cp then "Buy" else "Hold/Sell" } := by
  unfold ev_valuation
  rw [hgf]
  dsimp only
  rw [if_neg hcp]

/-- Inversion for `ev_valuation`: a produced record means `get_fair_value`
returned a present fair price and a present, nonzero current price (the
record itself is then given by `ev_valuation_eq`). -/
lemma ev_valuation_some_inv (ticker : String) (info : Info) (hist : List Bar)
    (r : ValuationResult) (h : ev_valuation ticker info hist = some r) :
    ∃ fp cp, get_fair_value info (1/10) = (some fp, some cp) ∧ cp ≠ 0 := by
  unfold ev_valuation at h
  split at h
  case _ fp cp heq =>
    split at h
    · exact absurd h (by simp)
    · next hcp => exact ⟨fp, cp, heq, hcp⟩
  case _ => exact absurd h (by simp)

/-! ## C1: Variant A band assignment -/

/-- C1: whenever the valuator has a present fair price and a present nonzero
current price, the produced record's valuation band follows the Variant A
priority order captured verbatim from the spec by `specBandA` (first match
wins; the 20 and 30 thresholds strict); in particular, at an undervaluation
of exactly 20 percent (with a nonnegative fair price, so that the OverValued
guard does not fire first) the band is `Undervalued`. -/
theorem ev_band_variantA (ticker : String) (info : Info) (hist : List Bar)
    (fp cp : ℚ) (r : ValuationResult)
    (hgf : get_fair_value info (1/10) = (some fp, some cp)) (hcp : cp ≠ 0)
    (h : ev_valuation ticker info hist = some r) :
    r.band = specBandA fp cp ∧
      (0 ≤ fp → (fp - cp) / cp * 100 = 20 → r.band = "Undervalued") := by
  have hrec := ev_valuation_eq ticker info hist fp cp hgf hcp
  rw [h] at hrec
  have hr := Option.some.inj hrec
  have hband : r.band = specBandA fp cp := by rw [hr]; rfl
  refine ⟨hband, fun hfp h20 => ?_⟩
  rw [hband]
  simp only [specBandA]
  rw [h20]
  have hnot : ¬(fp < 0 ∨ (20:ℚ) < 5) := by
    push_neg
    exact ⟨hfp, by norm_num⟩
  rw [if_neg hnot, if_neg (by norm_num), if_neg (by norm_num), if_pos (by norm_num)]

/-- Witness data for C1: fundamentals giving fair price 120 against current
price 100, an undervaluation of exactly 20 percent. -/
def infoC1 : Info := ⟨some 1200, some 1, some 11, some 100, none, none, none⟩

/-- The record C1's witness input produces. -/
def rC1 : ValuationResult :=
  ⟨"T", "N/A", 120, 100, 20, "Undervalued", "USA", "Small", "N/A",
    none, none, none, none, "Buy"⟩

theorem ev_band_variantA_witness :
    get_fair_value infoC1 (1/10) = (some 120, some 100) ∧ (100:ℚ) ≠ 0 ∧
    ev_valuation "T" infoC1 [] = some rC1 ∧
    rC1.band = specBandA 120 100 ∧ rC1.band = "Undervalued" := by
  have hgf : get_fair_value infoC1 (1/10) = (some 120, some 100) := by
    simp only [get_fair_value, infoC1]
    norm_num
  have hev : ev_valuation "T" infoC1 [] = some rC1 := by
    rw [ev_valuation_eq "T" infoC1 [] 120 100 hgf (by norm_num)]
    have hends : ("T".endsWith ".NS") = false := by decide
    simp [rC1, infoC1, round2, roundHalfEven, truthyMap, hends]
    norm_num [Int.fract]
  have hmain := ev_band_variantA "T" infoC1 [] 120 100 rC1 hgf (by norm_num) hev
  exact ⟨hgf, by norm_num, hev, hmain.1, hmain.2 (by norm_num) (by norm_num)⟩

/-! ## C8: cap-size buckets -/

/-- C8: the cap-size bucket of every produced record is determined by
inclusive lower-bound thresholds on the (defaulted-to-0) market
capitalization, first matching threshold winning: `Mega` exactly on
`[200e9, ∞)`, `Large` exactly on `[10e9, 200e9)`, `Mid` exactly on
`[2e9, 10e9)`, `Small` exactly on `(-∞, 2e9)`. -/
theorem ev_capsize_thresholds (ticker : String) (info : Info) (hist : List Bar)
    (r : ValuationResult) (h : ev_valuation ticker info hist = some r) :
    (r.capSize = "Mega" ↔ 200000000000 ≤ info.marketCap.getD 0) ∧
    (r.capSize = "Large" ↔ 10000000000 ≤ info.marketCap.getD 0 ∧
      info.marketCap.getD 0 < 200000000000) ∧
    (r.capSize = "Mid" ↔ 2000000000 ≤ info.marketCap.getD 0 ∧
      info.marketCap.getD 0 < 10000000000) ∧
    (r.capSize = "Small" ↔ info.marketCap.getD 0 < 2000000000) := by
  obtain ⟨fp, cp, hgf, hcp⟩ := ev_valuation_some_inv ticker info hist r h
  have hrec := ev_valuation_eq ticker info hist fp cp hgf hcp
  rw [h] at hrec
  have hr := Option.some.inj hrec
  have hcap : r.capSize =
      (if info.marketCap.getD 0 ≥ 200000000000 then "Mega"
       else if info.marketCap.getD 0 ≥ 10000000000 then "Large"
       else if info.marketCap.getD 0 ≥ 2000000000 then "Mid"
       else "Small") := by rw [hr]
  rw [hcap]
  split_ifs with h1 h2 h3
  · refine ⟨by simpa using h1, ?_, ?_, ?_⟩
    · simp only [show ("Mega" : String) ≠ "Large" from by decide, false_iff]
      rintro ⟨-, hlt⟩
      exact absurd h1 (not_le.mpr hlt)
    · simp only [show ("Mega" : String) ≠ "Mid" from by decide, false_iff]
      rintro ⟨-, hlt⟩
      exact absurd hlt (not_lt.mpr (by linarith))
    · simp only [show ("Mega" : String) ≠ "Small" from by decide, false_iff]
      intro hlt
      exact absurd hlt (not_lt.mpr (by linarith))
  · refine ⟨?_, by simpa using ⟨h2, not_le.mp h1⟩, ?_, ?_⟩
    · simp only [show ("Large" : String) ≠ "Mega" from by decide, false_iff]
      exact h1
    · simp only [show ("Large" : String) ≠ "Mid" from by decide, false_iff]
      rintro ⟨-, hlt⟩
      exact absurd hlt (not_lt.mpr (by linarith))
    · simp only [show ("Large" : String) ≠ "Small" from by decide, false_iff]
      intro hlt
      exact absurd hlt (not_lt.mpr (by linarith))
  · refine ⟨?_, ?_, by simpa using ⟨h3, not_le.mp h2⟩, ?_⟩
    · simp only [show ("Mid" : String) ≠ "Mega" from by decide, false_iff]
      exact h1
    · simp only [show ("Mid" : String) ≠ "Large" from by decide, false_iff]
      rintro ⟨hle, -⟩
      exact absurd hle h2
    · simp only [show ("Mid" : String) ≠ "Small" from by decide, false_iff]
      intro hlt
      exact absurd hlt (not_lt.mpr (by linarith))
  · refine ⟨?_, ?_, ?_, by simpa using not_le.mp h3⟩
    · simp only [show ("Small" : String) ≠ "Mega" from by decide, false_iff]
      exact h1
    · simp only [show ("Small" : String) ≠ "Large" from by decide, false_iff]
      rintro ⟨hle, -⟩
      exact absurd hle h2
    · simp only [show ("Small" : String) ≠ "Mid" from by decide, false_iff]
      rintro ⟨hle, -⟩
      exact absurd hle h3

/-- Witness data for C8: market cap exactly 200 billion. -/
def infoC8a : Info :=
  ⟨some 1200, some 1, some 11, some 100, none, some 200000000000, none⟩

/-- Witness data for C8: market cap 199,999,999,999. -/
def infoC8b : Info :=
  ⟨some 1200, some 1, some 11, some 100, none, some 199999999999, none⟩

/-- The record C8's first witness input produces. -/
def rC8a : ValuationResult :=
  ⟨"T", "N/A", 120, 100, 20, "Undervalued", "USA", "Mega", "N/A",
    none, none, none, none, "Buy"⟩

/-- The record C8's second witness input produces. -/
def rC8b : ValuationResult :=
  ⟨"T", "N/A", 120, 100, 20, "Undervalued", "USA", "Large", "N/A",
    none, none, none, none, "Buy"⟩

theorem ev_capsize_thresholds_witness :
    ev_valuation "T" infoC8a [] = some rC8a ∧ rC8a.capSize = "Mega" ∧
    ev_valuation "T" infoC8b [] = some rC8b ∧ rC8b.capSize = "Large" := by
  have hgfa : get_fair_value infoC8a (1/10) = (some 120, some 100) := by
    simp only [get_fair_value, infoC8a]
    norm_num
  have hgfb : get_fair_value infoC8b (1/10) = (some 120, some 100) := by
    simp only [get_fair_value, infoC8b]
    norm_num
  have hends : ("T".endsWith ".NS") = false := by decide
  have ha : ev_valuation "T" infoC8a [] = some rC8a := by
    rw [ev_valuation_eq "T" infoC8a [] 120 100 hgfa (by norm_num)]
    simp [rC8a, infoC8a, round2, roundHalfEven, truthyMap, hends]
    norm_num [Int.fract]
  have hb : ev_valuation "T" infoC8b [] = some rC8b := by
    rw [ev_valuation_eq "T" infoC8b [] 120 100 hgfb (by norm_num)]
    simp [rC8b, infoC8b, round2, roundHalfEven, truthyMap, hends]
    norm_num [Int.fract]
  exact ⟨ha, (ev_capsize_thresholds "T" infoC8a [] rC8a ha).1.mpr
      (by norm_num [infoC8a]),
    hb, (ev_capsize_thresholds "T" infoC8b [] rC8b hb).2.1.mpr
      (by norm_num [infoC8b])⟩

/-! ## C6: prices in a produced record (corrected) -/

/-- A fair price `get_fair_value` produces is never zero (for a growth rate
with `1 + g ≠ 0`): every factor of the computation is nonzero. -/
lemma get_fair_value_fst_ne_zero (info : Info) (g fp : ℚ) (cpo : Option ℚ)
    (h : get_fair_value info g = (some fp, cpo)) (hg : 1 + g ≠ 0) : fp ≠ 0 := by
  obtain ⟨ev, eb, sh, _, _, _, hevz, hebz, hshz, hfp, _⟩ :=
    get_fair_value_fst_some_inv info g fp cpo h
  rw [hfp]
  exact div_ne_zero (mul_ne_zero (mul_ne_zero hebz hg) (div_ne_zero hevz hebz)) hshz

/-- C6 (amended): in every produced Valuation Result record the fair price
and the current price are both present and nonzero — but not necessarily
positive — and the undervaluation percentage is computed exactly from them
(so only when both are present and the current price is nonzero). -/
theorem ev_result_price_presence (ticker : String) (info : Info) (hist : List Bar)
    (r : ValuationResult) (h : ev_valuation ticker info hist = some r) :
    ∃ fp cp, get_fair_value info (1/10) = (some fp, some cp) ∧ fp ≠ 0 ∧ cp ≠ 0 ∧
      r.fairValue = round2 fp ∧ r.currentPrice = round2 cp ∧
      r.undervalPct = round2 ((fp - cp) / cp * 100) := by
  obtain ⟨fp, cp, hgf, hcp⟩ := ev_valuation_some_inv ticker info hist r h
  have hrec := ev_valuation_eq ticker info hist fp cp hgf hcp
  rw [h] at hrec
  have hr := Option.some.inj hrec
  exact ⟨fp, cp, hgf,
    get_fair_value_fst_ne_zero info (1/10) fp (some cp) hgf (by norm_num), hcp,
    by rw [hr], by rw [hr], by rw [hr]⟩

/-- Counterexample data for C6: a negative enterprise value passes the
truthiness guard, so the produced record's fair price is negative. -/
def infoC6 : Info := ⟨some (-100), some 5, some 10, some 50, none, none, none⟩

/-- The record C6's counterexample input produces: fair price -11. -/
def rC6 : ValuationResult :=
  ⟨"T", "N/A", -11, 50, -122, "Over Valued", "USA", "Small", "N/A",
    none, none, none, none, "Hold/Sell"⟩

/-- C6 as stated is false: this record is produced and its fair price (and
hence not both prices) is negative, not positive. -/
theorem ev_result_price_presence_counterexample :
    ev_valuation "T" infoC6 [] = some rC6 ∧ rC6.fairValue < 0 := by
  have hgf : get_fair_value infoC6 (1/10) = (some (-11), some 50) := by
    simp only [get_fair_value, infoC6]
    norm_num
  have hends : ("T".endsWith ".NS") = false := by decide
  have hev : ev_valuation "T" infoC6 [] = some rC6 := by
    rw [ev_valuation_eq "T" infoC6 [] (-11) 50 hgf (by norm_num)]
    simp [rC6, infoC6, round2, roundHalfEven, truthyMap, hends]
    norm_num [Int.fract]
  exact ⟨hev, by norm_num [rC6]⟩

theorem ev_result_price_presence_witness :
    ∃ fp cp, get_fair_value infoC6 (1/10) = (some fp, some cp) ∧ fp ≠ 0 ∧ cp ≠ 0 ∧
      rC6.fairValue = round2 fp ∧ rC6.currentPrice = round2 cp ∧
      rC6.undervalPct = round2 ((fp - cp) / cp * 100) := by
  have hgf : get_fair_value infoC6 (1/10) = (some (-11), some 50) := by
    simp only [get_fair_value, infoC6]
    norm_num
  have hends : ("T".endsWith ".NS") = false := by decide
  have hev : ev_valuation "T" infoC6 [] = some rC6 := by
    rw [ev_valuation_eq "T" infoC6 [] (-11) 50 hgf (by norm_num)]
    simp [rC6, infoC6, round2, roundHalfEven, truthyMap, hends]
    norm_num [Int.fract]
  exact ev_result_price_presence "T" infoC6 [] rC6 hev

/-! ## C10: zero extremes hit the N/A sentinel -/

/-- C10: for a non-empty history whose 3-year minimum low is exactly 0, the
record's 3Y Low and Entry Price fields are the N/A sentinel (`none`), and
likewise a zero 3-year maximum high gives N/A for 3Y High and Exit Price:
the Python presence test is numeric truthiness, which conflates 0 with
absence. -/
theorem ev_na_on_zero_extremes (ticker : String) (info : Info) (hist : List Bar)
    (r : ValuationResult) (h : ev_valuation ticker info hist = some r)
    (hne : hist ≠ []) :
    (seriesMin (hist.map Bar.low) = some 0 →
      r.low3y = none ∧ r.entryPrice = none) ∧
    (seriesMax (hist.map Bar.high) = some 0 →
      r.high3y = none ∧ r.exitPrice = none) := by
  obtain ⟨fp, cp, hgf, hcp⟩ := ev_valuation_some_inv ticker info hist r h
  have hrec := ev_valuation_eq ticker info hist fp cp hgf hcp
  rw [h] at hrec
  have hr := Option.some.inj hrec
  have hemp : hist.isEmpty = false := by
    cases hist
    · exact absurd rfl hne
    · rfl
  constructor
  · intro hmin
    constructor
    · rw [hr]
      simp [hemp, hmin, truthyMap]
    · rw [hr]
      simp [hemp, hmin, truthyMap]
  · intro hmax
    constructor
    · rw [hr]
      simp [hemp, hmax, truthyMap]
    · rw [hr]
      simp [hemp, hmax, truthyMap]

/-- Witness data for C10: one bar whose low is exactly 0. -/
def infoC10 : Info := ⟨some 1200, some 1, some 11, some 100, none, none, none⟩

/-- Witness history for C10: a single 2024 bar with low 0 and high 10. -/
def histC10 : List Bar := [⟨2024, 10, 0, 5⟩]

/-- The record C10's witness input produces: 3Y Low and Entry Price are N/A
although the history is non-empty, while 3Y High and Exit Price are present. -/
def rC10 : ValuationResult :=
  ⟨"T", "N/A", 120, 100, 20, "Undervalued", "USA", "Small", "N/A",
    some 10, none, none, some (19/2), "Buy"⟩

theorem ev_na_on_zero_extremes_witness :
    ev_valuation "T" infoC10 histC10 = some rC10 ∧ histC10 ≠ [] ∧
    seriesMin (histC10.map Bar.low) = some 0 ∧
    rC10.low3y = none ∧ rC10.entryPrice = none := by
  have hgf : get_fair_value infoC10 (1/10) = (some 120, some 100) := by
    simp only [get_fair_value, infoC10]
    norm_num
  have hends : ("T".endsWith ".NS") = false := by decide
  have hev : ev_valuation "T" infoC10 histC10 = some rC10 := by
    rw [ev_valuation_eq "T" infoC10 histC10 120 100 hgf (by norm_num)]
    simp [rC10, infoC10, histC10, round2, roundHalfEven, truthyMap,
      seriesMin, seriesMax, hends]
    norm_num [Int.fract]
  have hmin : seriesMin (histC10.map Bar.low) = some 0 := by
    simp [histC10, seriesMin]
  have hmain := (ev_na_on_zero_extremes "T" infoC10 histC10 rC10 hev
    (by simp [histC10])).1 hmin
  exact ⟨hev, by simp [histC10], hmin, hmain.1, hmain.2⟩

/-! ## C3: one row per year with data -/

/-- A row the year loop emits carries the year it was built for. -/
lemma backtest_year_row_year (fv : ℚ) (hist : List Bar) (cy y : ℤ)
    (row : BacktestRow) (h : backtest_year_row fv hist cy y = some row) :
    row.year = y := by
  unfold backtest_year_row at h
  split at h
  · exact absurd h (by simp)
  · rw [← Option.some.inj h]

/-- The year loop skips a year exactly when the year has no bars. -/
lemma backtest_year_row_none_iff (fv : ℚ) (hist : List Bar) (cy y : ℤ) :
    backtest_year_row fv hist cy y = none ↔
      hist.filter (fun b => b.year = y) = [] := by
  unfold backtest_year_row
  split <;> simp_all

/-- C3: `backtest_fair_value` emits rows in strictly ascending year order,
and the years of the emitted rows are exactly the years of the half-open
window `[currentYear - lookbackYears, currentYear)` that have at least one
bar of data (so each such year gets exactly one row, a year with no bars is
skipped, and the current in-progress year is never emitted). -/
theorem backtest_rows_per_year (fv : ℚ) (hist : List Bar) (cy : ℤ) (years : ℕ) :
    List.Sorted (· < ·)
      ((backtest_fair_value fv hist cy years).map BacktestRow.year) ∧
    ∀ y : ℤ,
      y ∈ (backtest_fair_value fv hist cy years).map BacktestRow.year ↔
        (cy - years ≤ y ∧ y < cy ∧ ∃ b ∈ hist, b.year = y) := by
  by_cases hemp : hist.isEmpty
  · have hnil : hist = [] := List.isEmpty_iff.mp hemp
    subst hnil
    simp [backtest_fair_value]
  · unfold backtest_fair_value
    rw [if_neg hemp]
    constructor
    · rw [List.map_filterMap]
      refine List.Pairwise.filterMap _ ?_ (List.pairwise_lt_range years)
      intro a a' haa b hb b' hb'
      rcases Option.map_eq_some'.mp hb with ⟨row, hrow, hyr⟩
      rcases Option.map_eq_some'.mp hb' with ⟨row', hrow', hyr'⟩
      have h1 := backtest_year_row_year fv hist cy _ row hrow
      have h2 := backtest_year_row_year fv hist cy _ row' hrow'
      rw [← hyr, ← hyr', h1, h2]
      omega
    · intro y
      rw [List.map_filterMap, List.mem_filterMap]
      constructor
      · rintro ⟨i, hi, hfi⟩
        rw [List.mem_range] at hi
        rcases Option.map_eq_some'.mp hfi with ⟨row, hrow, hyr⟩
        have hy := backtest_year_row_year fv hist cy _ row hrow
        have hfil : hist.filter (fun b => b.year = cy - ↑years + ↑i) ≠ [] := by
          intro hnil
          rw [(backtest_year_row_none_iff fv hist cy _).mpr hnil] at hrow
          exact Option.noConfusion hrow
        rw [ne_eq, List.filter_eq_nil_iff] at hfil
        push_neg at hfil
        obtain ⟨b, hbmem, hbyear⟩ := hfil
        rw [← hyr, hy]
        exact ⟨by omega, by omega, b, hbmem, by simpa using hbyear⟩
      · rintro ⟨hy1, hy2, b, hb, hby⟩
        refine ⟨(y - (cy - ↑years)).toNat, ?_, ?_⟩
        · rw [List.mem_range]
          omega
        · have hcast : (cy - ↑years + ↑((y - (cy - ↑years)).toNat) : ℤ) = y := by
            omega
          rw [hcast]
          have hfil : hist.filter (fun b' => b'.year = y) ≠ [] := by
            simp only [ne_eq, List.filter_eq_nil_iff]
            push_neg
            exact ⟨b, hb, by simp [hby]⟩
          have hne : backtest_year_row fv hist cy y ≠ none := fun hn =>
            hfil ((backtest_year_row_none_iff fv hist cy y).mp hn)
          rcases Option.ne_none_iff_exists'.mp hne with ⟨row, hrow⟩
          rw [hrow]
          simp only [Option.map_some']
          rw [backtest_year_row_year fv hist cy y row hrow]

/-! ## C4: simulated fair value and the converged flag -/

/-- C4: every emitted backtest row for year `y` carries (rounded to two
decimals for presentation) the simulated fair value
`currentFairValue / 1.10 ^ (currentYear - y)`, and its converged flag is
`"Yes"` exactly when that (unrounded) simulated value lies within the year's
observed low-high range, both boundary comparisons inclusive. -/
theorem backtest_sfv_and_converged (fv : ℚ) (hist : List Bar) (cy : ℤ)
    (years : ℕ) (row : BacktestRow)
    (h : row ∈ backtest_fair_value fv hist cy years) :
    ∃ lo hi,
      seriesMin ((hist.filter (fun b => b.year = row.year)).map Bar.low) =
        some lo ∧
      seriesMax ((hist.filter (fun b => b.year = row.year)).map Bar.high) =
        some hi ∧
      row.simFairValue = round2 (simulated_fv fv (cy - row.year)) ∧
      (row.converged = "Yes" ↔
        lo ≤ simulated_fv fv (cy - row.year) ∧
          simulated_fv fv (cy - row.year) ≤ hi) := by
  unfold backtest_fair_value at h
  split at h
  · exact absurd h (by simp)
  · rw [List.mem_filterMap] at h
    obtain ⟨i, _, hrow⟩ := h
    have hyear := backtest_year_row_year fv hist cy _ row hrow
    rw [hyear]
    unfold backtest_year_row at hrow
    split at hrow
    · exact absurd hrow (by simp)
    · next b bs heq =>
        rw [heq]
        have hr := Option.some.inj hrow
        refine ⟨(bs.map Bar.low).foldl min b.low,
          (bs.map Bar.high).foldl max b.high, by simp [seriesMin],
          by simp [seriesMax], ?_, ?_⟩
        · rw [← hr]
        · rw [← hr]
          dsimp only
          split_ifs with hc
          · simpa using hc
          · simpa using hc

/-- Witness history for C4: one 2024 bar, low 100, high 105, close 102. -/
def histC4 : List Bar := [⟨2024, 105, 100, 102⟩]

/-- The row C4's witness input emits for 2024 with current fair value 110 in
2025: the simulated fair value 110 / 1.10 = 100 sits exactly on the year's
low, so the inclusive boundary comparison yields converged = "Yes". -/
def rowC4 : BacktestRow := ⟨2024, 100, 102, 105, 100, -49/25, "Yes"⟩

theorem backtest_sfv_and_converged_witness :
    rowC4 ∈ backtest_fair_value 110 histC4 2025 1 ∧
    ∃ lo hi,
      seriesMin ((histC4.filter (fun b => b.year = rowC4.year)).map Bar.low) =
        some lo ∧
      seriesMax ((histC4.filter (fun b => b.year = rowC4.year)).map Bar.high) =
        some hi ∧
      rowC4.simFairValue = round2 (simulated_fv 110 (2025 - rowC4.year)) ∧
      (rowC4.converged = "Yes" ↔
        lo ≤ simulated_fv 110 (2025 - rowC4.year) ∧
          simulated_fv 110 (2025 - rowC4.year) ≤ hi) := by
  have hfil : histC4.filter (fun b => b.year = (2024:ℤ)) =
      [⟨2024, 105, 100, 102⟩] := by
    simp [histC4]
  have h0 : backtest_year_row 110 histC4 2025 2024 = some rowC4 := by
    unfold backtest_year_row
    rw [hfil]
    dsimp only
    simp [rowC4, simulated_fv, round2, roundHalfEven]
    norm_num [Int.fract]
  have hall : backtest_fair_value 110 histC4 2025 1 = [rowC4] := by
    unfold backtest_fair_value
    rw [if_neg (by simp [histC4])]
    rw [show List.range 1 = [0] from by simp [List.range_succ]]
    have harg : ((2025:ℤ) - ((1:ℕ):ℤ) + ((0:ℕ):ℤ)) = 2024 := by norm_num
    simp only [List.filterMap_cons, List.filterMap_nil, harg, h0]
  have hmem : rowC4 ∈ backtest_fair_value 110 histC4 2025 1 := by
    rw [hall]
    simp
  exact ⟨hmem, backtest_sfv_and_converged 110 histC4 2025 1 rowC4 hmem⟩

/-! ## C7: per-ticker failure recovery -/

/-- The second component `get_fair_value` returns is the fetched current
price, unless everything was absent. -/
lemma get_fair_value_snd (info : Info) (g : ℚ) :
    (get_fair_value info g).2 = info.currentPrice ∨
      get_fair_value info g = (none, none) := by
  unfold get_fair_value
  split
  · split
    · right
      rfl
    · left
      rfl
  · right
    rfl

/-- C7: every failure kind is recovered at the per-ticker boundary.  A
data-source fault makes the valuator yield `none` and the backtester yield
the empty sequence; a missing fundamentals or current-price field makes the
valuator yield `none`; the arithmetic fault of a zero current price
(`ZeroDivisionError`) makes the valuator yield `none`; an empty (malformed)
history makes the backtester yield the empty sequence, never partial rows;
and the batch loop always continues with the remaining tickers, whatever a
ticker produced. -/
theorem per_ticker_failure_recovery
    (fetch : FetchValuation) (fetchH : FetchHistory) (ticker : String)
    (fv : ℚ) (cy : ℤ) (years : ℕ) :
    ((∃ e, fetch ticker = Except.error e) →
      ev_valuation_fetched fetch ticker = none) ∧
    ((∃ e, fetchH ticker = Except.error e) →
      backtest_fair_value_fetched fetchH ticker fv cy years = []) ∧
    (∀ info hist, fetch ticker = Except.ok (info, hist) →
      (info.enterpriseValue = none ∨ info.ebitda = none ∨
        info.sharesOutstanding = none ∨ info.currentPrice = none) →
      ev_valuation_fetched fetch ticker = none) ∧
    (∀ info hist fp, fetch ticker = Except.ok (info, hist) →
      get_fair_value info (1/10) = (some fp, some 0) →
      ev_valuation_fetched fetch ticker = none) ∧
    (∀ hist, fetchH ticker = Except.ok hist → hist = [] →
      backtest_fair_value_fetched fetchH ticker fv cy years = []) ∧
    (∀ rest, process_tickers fetch (ticker :: rest) =
      (ev_valuation_fetched fetch ticker).toList ++ process_tickers fetch rest) := by
  refine ⟨?_, ?_, ?_, ?_, ?_, ?_⟩
  · rintro ⟨e, he⟩
    unfold ev_valuation_fetched
    rw [he]
  · rintro ⟨e, he⟩
    unfold backtest_fair_value_fetched
    rw [he]
  · intro info hist hok hmiss
    unfold ev_valuation_fetched
    rw [hok]
    dsimp only
    rcases hmiss with h | h | h | h
    · unfold ev_valuation
      rw [gfv_missing_absent info (1/10) (Or.inl h)]
    · unfold ev_valuation
      rw [gfv_missing_absent info (1/10) (Or.inr (Or.inl h))]
    · unfold ev_valuation
      rw [gfv_missing_absent info (1/10) (Or.inr (Or.inr h))]
    · rcases get_fair_value_snd info (1/10) with hsnd | hboth
      · rcases hgf : get_fair_value info (1/10) with ⟨o1, o2⟩
        have ho2 : o2 = none := by
          rw [hgf] at hsnd
          simpa [h] using hsnd
        subst ho2
        unfold ev_valuation
        rw [hgf]
        cases o1 <;> rfl
      · unfold ev_valuation
        rw [hboth]
  · intro info hist fp hok hgf
    unfold ev_valuation_fetched
    rw [hok]
    dsimp only
    unfold ev_valuation
    rw [hgf]
    dsimp only
    rw [if_pos rfl]
  · intro hist hok hnil
    unfold backtest_fair_value_fetched
    rw [hok]
    dsimp only
    subst hnil
    unfold backtest_fair_value
    rfl
  · intro rest
    cases hev : ev_valuation_fetched fetch ticker <;>
      simp [process_tickers, List.filterMap_cons, hev]
